import Mathlib

/-!
Verification of the Vedic zodiac-wheel computations.

The JavaScript sources are embedded shallowly over the exact rationals:
every finite IEEE value is modelled by a rational, `%` is modelled by the
JavaScript remainder (truncated division, sign of the dividend), and the
external astronomy library (alt/az horizon queries, sidereal time, trig)
is modelled by explicit function parameters, since the repository treats
it as an opaque collaborator.  Non-finite JavaScript numbers (NaN, plus
and minus infinity) appear only where a claim is about them and are
modelled by the inductive type `JSNum`.
-/

/-- Truncation toward zero on rationals: the rounding used by the
JavaScript `%` operator. -/
def ratTrunc (q : ℚ) : ℤ := if 0 ≤ q then ⌊q⌋ else ⌈q⌉

/-- JavaScript remainder `q % n` for finite operands: the result has the
sign of the dividend `q`. -/
def jsRem (q n : ℚ) : ℚ := q - n * ratTrunc (q / n)

/-- `norm360` from the source:
`function norm360(d) { let x = d % 360; if (x < 0) x += 360; return x; }`. -/
def norm360 (d : ℚ) : ℚ :=
  let x := jsRem d 360
  if x < 0 then x + 360 else x

theorem norm360_ite (d : ℚ) :
    norm360 d = if jsRem d 360 < 0 then jsRem d 360 + 360 else jsRem d 360 := rfl

theorem jsRem_lt_360 (d : ℚ) : jsRem d 360 < 360 := by
  unfold jsRem ratTrunc
  split
  · have h2 : d / 360 < ⌊d / 360⌋ + 1 := Int.lt_floor_add_one _
    have h3 : d < (↑⌊d / 360⌋ + 1) * 360 := by
      rw [div_lt_iff (by norm_num : (0:ℚ) < 360)] at h2
      exact h2
    push_cast at h3 ⊢
    linarith
  · have h2 : d / 360 ≤ ⌈d / 360⌉ := Int.le_ceil _
    have h3 : d ≤ (⌈d / 360⌉ : ℚ) * 360 := by
      rw [div_le_iff (by norm_num : (0:ℚ) < 360)] at h2
      exact h2
    linarith

theorem neg_360_lt_jsRem (d : ℚ) : -360 < jsRem d 360 := by
  unfold jsRem ratTrunc
  split
  · have h2 : (⌊d / 360⌋ : ℚ) ≤ d / 360 := Int.floor_le _
    have h3 : (⌊d / 360⌋ : ℚ) * 360 ≤ d := by
      rw [le_div_iff (by norm_num : (0:ℚ) < 360)] at h2
      exact h2
    linarith
  · have h2 : (⌈d / 360⌉ : ℚ) < d / 360 + 1 := Int.ceil_lt_add_one _
    have h2' : (⌈d / 360⌉ : ℚ) - 1 < d / 360 := by linarith
    have h3 : ((⌈d / 360⌉ : ℚ) - 1) * 360 < d :=
      (lt_div_iff (by norm_num : (0:ℚ) < 360)).mp h2'
    linarith

theorem jsRem_nonneg (d : ℚ) (hd : 0 ≤ d) : 0 ≤ jsRem d 360 := by
  unfold jsRem ratTrunc
  rw [if_pos (div_nonneg hd (by norm_num))]
  have h2 : (⌊d / 360⌋ : ℚ) ≤ d / 360 := Int.floor_le _
  have h3 : (⌊d / 360⌋ : ℚ) * 360 ≤ d := by
    rw [le_div_iff (by norm_num : (0:ℚ) < 360)] at h2
    exact h2
  linarith

theorem norm360_nonneg (d : ℚ) : 0 ≤ norm360 d := by
  rw [norm360_ite]
  split
  · linarith [neg_360_lt_jsRem d]
  · linarith [not_lt.mp (by assumption : ¬ jsRem d 360 < 0)]

theorem norm360_lt (d : ℚ) : norm360 d < 360 := by
  rw [norm360_ite]
  split
  · linarith [show jsRem d 360 < 0 by assumption]
  · exact jsRem_lt_360 d

theorem norm360_sub_int (d : ℚ) : ∃ k : ℤ, norm360 d = d - 360 * (k : ℚ) := by
  rw [norm360_ite]
  split
  · exact ⟨ratTrunc (d / 360) - 1, by unfold jsRem; push_cast; ring⟩
  · exact ⟨ratTrunc (d / 360), by unfold jsRem; push_cast; ring⟩

theorem norm360_eq_floor (d : ℚ) : norm360 d = d - 360 * (⌊d / 360⌋ : ℚ) := by
  obtain ⟨k, hk⟩ := norm360_sub_int d
  have h0 : 0 ≤ d - 360 * (k : ℚ) := hk ▸ norm360_nonneg d
  have h1 : d - 360 * (k : ℚ) < 360 := hk ▸ norm360_lt d
  have hfl : ⌊d / 360⌋ = k := by
    rw [Int.floor_eq_iff]
    constructor
    · rw [le_div_iff (by norm_num : (0:ℚ) < 360)]
      linarith
    · rw [div_lt_iff (by norm_num : (0:ℚ) < 360)]
      push_cast
      linarith
  rw [hfl]
  exact hk

theorem norm360_add_int (d : ℚ) (k : ℤ) : norm360 (d + 360 * (k : ℚ)) = norm360 d := by
  rw [norm360_eq_floor, norm360_eq_floor]
  have hdiv : (d + 360 * (k : ℚ)) / 360 = d / 360 + (k : ℚ) := by
    field_simp
    ring
  rw [hdiv, Int.floor_add_int]
  push_cast
  ring

theorem norm360_eq_self (d : ℚ) (h0 : 0 ≤ d) (h1 : d < 360) : norm360 d = d := by
  rw [norm360_eq_floor]
  have hfl : ⌊d / 360⌋ = 0 := by
    rw [Int.floor_eq_zero_iff]
    constructor
    · exact div_nonneg h0 (by norm_num)
    · rw [div_lt_one (by norm_num : (0:ℚ) < 360)]
      exact h1
  rw [hfl]
  push_cast
  ring

theorem norm360_neg_seg (d : ℚ) (h0 : -360 ≤ d) (h1 : d < 0) : norm360 d = d + 360 := by
  rw [norm360_eq_floor]
  have hfl : ⌊d / 360⌋ = -1 := by
    rw [Int.floor_eq_iff]
    constructor
    · push_cast
      rw [le_div_iff (by norm_num : (0:ℚ) < 360)]
      linarith
    · push_cast
      rw [div_lt_iff (by norm_num : (0:ℚ) < 360)]
      linarith
  rw [hfl]
  push_cast
  ring

/-- Claim C6: for every tropical longitude `t` in `[0, 360)` and every
ayanamsha `a`, converting to sidereal via `norm360 (t - a)` and converting
back by adding `a` and renormalizing with `norm360` recovers `t` (exactly,
in the rational model of the arithmetic). -/
theorem C6_roundtrip (t a : ℚ) (h0 : 0 ≤ t) (h1 : t < 360) :
    norm360 (norm360 (t - a) + a) = t := by
  obtain ⟨k, hk⟩ := norm360_sub_int (t - a)
  rw [hk]
  have harg : t - a - 360 * (k : ℚ) + a = t + 360 * ((-k : ℤ) : ℚ) := by
    push_cast
    ring
  rw [harg, norm360_add_int, norm360_eq_self t h0 h1]

/-- Witness for C6 at the concrete tropical longitude 10° and the Lahiri
ayanamsha 24.1°. -/
theorem C6_roundtrip_witness :
    (0:ℚ) ≤ 10 ∧ (10:ℚ) < 360 ∧
      norm360 (norm360 (10 - 241/10) + 241/10) = 10 :=
  ⟨by norm_num, by norm_num, C6_roundtrip 10 (241/10) (by norm_num) (by norm_num)⟩

/-- One altitude/azimuth reply of the horizon backend
(`Astronomy.Horizon`) for a candidate ecliptic longitude. -/
structure AltAz where
  alt : ℚ
  az : ℚ
deriving DecidableEq

/-- Mutable state of the coarse 5° scan in `ascendantLongitude`:
`let bestLam = 0, bestScore = 1e9, bestAzErr = 1e9;`. -/
structure ScanSt where
  bestScore : ℚ
  bestAzErr : ℚ
  bestLam : ℚ
deriving DecidableEq

def scanInit : ScanSt := ⟨1000000000, 1000000000, 0⟩

/-- One iteration of the coarse scan loop of `ascendantLongitude`:
score a candidate by `|alt|`, gate on azimuth strictly between 45 and 135,
and replace the best candidate on a strictly better score or on a
score tie within 0.01 with a strictly better azimuth error. -/
def scanStep (h : ℚ → AltAz) (st : ScanSt) (lam : ℚ) : ScanSt :=
  let hx := h lam
  let score := |hx.alt|
  let azErr := |hx.az - 90|
  if 45 < hx.az ∧ hx.az < 135 ∧
      (score < st.bestScore ∨ (|score - st.bestScore| < 1/100 ∧ azErr < st.bestAzErr)) then
    ⟨score, azErr, lam⟩
  else st

/-- The candidate longitudes of the coarse scan:
`for (let lam=0; lam<360; lam+=5)`. -/
def scanSamples : List ℚ := (List.range 72).map (fun i : ℕ => 5 * (i : ℚ))

def scanBest (h : ℚ → AltAz) : ScanSt := scanSamples.foldl (scanStep h) scanInit

/-- The candidate grid of one refinement pass:
`for (let x=lam-5; x<=lam+5; x+=step)`. -/
def sweep (lam step : ℚ) : List ℚ :=
  (List.range (⌊10 / step⌋.toNat + 1)).map (fun i : ℕ => lam - 5 + step * (i : ℚ))

/-- One iteration of the refinement inner loop: score
`|alt| + 0.01*|az-90|` at `norm360 x` and keep the strictly best. -/
def localStep (h : ℚ → AltAz) (p : ℚ × ℚ) (x : ℚ) : ℚ × ℚ :=
  let hx := h (norm360 x)
  let score := |hx.alt| + (1/100) * |hx.az - 90|
  if score < p.2 then (norm360 x, score) else p

/-- One refinement pass: `localBest = lam, localScore = 1e9` then the
inner sweep. -/
def localMin (h : ℚ → AltAz) (lam step : ℚ) : ℚ :=
  ((sweep lam step).foldl (localStep h) (lam, 1000000000)).1

/-- The three refinement passes of `ascendantLongitude`
(`step` starts at 1 and is divided by 5 after each pass). -/
def refineLam (h : ℚ → AltAz) (lam : ℚ) : ℚ :=
  localMin h (localMin h (localMin h lam 1) (1/5)) (1/25)

/-- `ascendantLongitude` from the source, with the external
`Astronomy.Horizon` backend abstracted as the function `h` from a
candidate ecliptic longitude to its altitude/azimuth at the given
instant and observer. -/
def ascendantLongitude (h : ℚ → AltAz) : ℚ :=
  norm360 (refineLam h (scanBest h).bestLam)

/-- `ascendantLongitude` as a function of the observer latitude, the
horizon backend now also taking the latitude it is queried at. -/
def ascendantLongitudeObs (h : ℚ → ℚ → AltAz) (lat : ℚ) : ℚ :=
  ascendantLongitude (h lat)

/-- The 5° scan brackets a horizon crossing at index `i` when the
altitude changes sign between the consecutive samples `5*i` and
`5*(i+1)`. -/
def crossingAt (h : ℚ → AltAz) (i : ℕ) : Prop :=
  (h (5 * (i : ℚ))).alt * (h (5 * ((i : ℚ) + 1))).alt < 0

instance (h : ℚ → AltAz) (i : ℕ) : Decidable (crossingAt h i) :=
  inferInstanceAs (Decidable (_ < _))

/-- The score of one refinement candidate:
`Math.abs(h.alt) + 0.01*Math.abs((h.az||0)-90)` at `norm360 x`. -/
def localScore (h : ℚ → AltAz) (x : ℚ) : ℚ :=
  |(h (norm360 x)).alt| + (1/100) * |(h (norm360 x)).az - 90|

theorem scanStep_def (h : ℚ → AltAz) (st : ScanSt) (lam : ℚ) :
    scanStep h st lam =
      if 45 < (h lam).az ∧ (h lam).az < 135 ∧
          (|(h lam).alt| < st.bestScore ∨
            (abs (|(h lam).alt| - st.bestScore) < 1/100 ∧ |(h lam).az - 90| < st.bestAzErr)) then
        ⟨|(h lam).alt|, |(h lam).az - 90|, lam⟩
      else st := rfl

theorem localStep_def (h : ℚ → AltAz) (p : ℚ × ℚ) (x : ℚ) :
    localStep h p x =
      if localScore h x < p.2 then (norm360 x, localScore h x) else p := rfl

theorem scanStep_az_inv (h : ℚ → AltAz) (st : ScanSt) (lam : ℚ)
    (hst : st = scanInit ∨ (45 < (h st.bestLam).az ∧ (h st.bestLam).az < 135)) :
    scanStep h st lam = scanInit ∨
      (45 < (h (scanStep h st lam).bestLam).az ∧ (h (scanStep h st lam).bestLam).az < 135) := by
  rw [scanStep_def]
  split
  · right
    rename_i hcond
    exact ⟨hcond.1, hcond.2.1⟩
  · exact hst

theorem foldl_scanStep_az_inv (h : ℚ → AltAz) :
    ∀ (l : List ℚ) (st : ScanSt),
      (st = scanInit ∨ (45 < (h st.bestLam).az ∧ (h st.bestLam).az < 135)) →
      (l.foldl (scanStep h) st = scanInit ∨
        (45 < (h (l.foldl (scanStep h) st).bestLam).az ∧
         (h (l.foldl (scanStep h) st).bestLam).az < 135)) := by
  intro l
  induction l with
  | nil => intro st hst; exact hst
  | cons a t ih =>
      intro st hst
      exact ih (scanStep h st a) (scanStep_az_inv h st a hst)

/-- Claim C1, amended: the coarse scan of `ascendantLongitude` either
keeps its fallback initial state or selects a sample whose azimuth lies
strictly inside the (45°, 135°) window — hence within 45° of due east —
so a western/setting crossing with azimuth near 270° is never selected;
but among the gated samples the scan minimizes |altitude| and uses
closeness of the azimuth to 90° only to break score ties within 0.01,
so the selected crossing need not be the one whose azimuth is closest
to 90°. -/
theorem C1_amended (h : ℚ → AltAz) :
    scanBest h = scanInit ∨
      (45 < (h (scanBest h).bestLam).az ∧ (h (scanBest h).bestLam).az < 135 ∧
       |(h (scanBest h).bestLam).az - 90| < 45) := by
  have hsb : scanBest h = scanSamples.foldl (scanStep h) scanInit := rfl
  rw [hsb]
  rcases foldl_scanStep_az_inv h scanSamples scanInit (Or.inl rfl) with hl | hr
  · exact Or.inl hl
  · refine Or.inr ⟨hr.1, hr.2, ?_⟩
    rw [abs_sub_lt_iff]
    constructor <;> linarith [hr.1, hr.2]

theorem mem_sweep_bounds (lam step x : ℚ) (hstep : 0 < step) (hx : x ∈ sweep lam step) :
    lam - 5 ≤ x ∧ x ≤ lam + 5 := by
  unfold sweep at hx
  obtain ⟨i, hi, rfl⟩ := List.mem_map.mp hx
  have hfl0 : 0 ≤ ⌊10 / step⌋ := by
    apply Int.floor_nonneg.mpr
    positivity
  have hi' : (i : ℤ) ≤ ⌊10 / step⌋ := by
    have hr := List.mem_range.mp hi
    have := Int.toNat_of_nonneg hfl0
    omega
  constructor
  · have : 0 ≤ step * (i : ℚ) := by positivity
    linarith
  · have h1 : ((i : ℤ) : ℚ) ≤ ((⌊10 / step⌋ : ℤ) : ℚ) := by exact_mod_cast hi'
    have h2 : ((⌊10 / step⌋ : ℤ) : ℚ) ≤ 10 / step := Int.floor_le _
    have h3 : (i : ℚ) ≤ 10 / step := by push_cast at h1 ⊢; linarith
    have h4 : step * (i : ℚ) ≤ 10 := by
      rw [le_div_iff hstep] at h3
      linarith
    linarith

theorem foldl_localStep_snd_le (h : ℚ → AltAz) :
    ∀ (l : List ℚ) (p : ℚ × ℚ), (l.foldl (localStep h) p).2 ≤ p.2 := by
  intro l
  induction l with
  | nil => intro p; exact le_refl _
  | cons a t ih =>
      intro p
      have h1 := ih (localStep h p a)
      have h2 : (localStep h p a).2 ≤ p.2 := by
        rw [localStep_def]
        split
        · exact le_of_lt (by assumption)
        · exact le_refl _
      exact le_trans h1 h2

theorem foldl_localStep_snd_le_mem (h : ℚ → AltAz) :
    ∀ (l : List ℚ) (p : ℚ × ℚ) (x : ℚ), x ∈ l →
      (l.foldl (localStep h) p).2 ≤ localScore h x := by
  intro l
  induction l with
  | nil => intro p x hx; exact absurd hx (List.not_mem_nil x)
  | cons a t ih =>
      intro p x hx
      rcases List.mem_cons.mp hx with rfl | hx'
      · have h1 := foldl_localStep_snd_le h t (localStep h p x)
        have h2 : (localStep h p x).2 ≤ localScore h x := by
          rw [localStep_def]
          split
          · exact le_refl _
          · exact le_of_not_lt (by assumption)
        exact le_trans h1 h2
      · exact ih (localStep h p a) x hx'

theorem foldl_localStep_fst (h : ℚ → AltAz) :
    ∀ (l : List ℚ) (p : ℚ × ℚ),
      l.foldl (localStep h) p = p ∨
        ∃ x ∈ l, l.foldl (localStep h) p = (norm360 x, localScore h x) := by
  intro l
  induction l with
  | nil => intro p; exact Or.inl rfl
  | cons a t ih =>
      intro p
      rcases ih (localStep h p a) with heq | ⟨x, hx, heq⟩
      · rw [List.foldl_cons, heq, localStep_def]
        split
        · exact Or.inr ⟨a, List.mem_cons_self a t, rfl⟩
        · exact Or.inl rfl
      · exact Or.inr ⟨x, List.mem_cons_of_mem a hx, by rw [List.foldl_cons, heq]⟩

theorem localMin_close (h : ℚ → AltAz) (lam step : ℚ) (hstep : 0 < step) :
    ∃ (d : ℚ) (k : ℤ), |d| ≤ 5 ∧ localMin h lam step = lam + d + 360 * (k : ℚ) := by
  unfold localMin
  rcases foldl_localStep_fst h (sweep lam step) (lam, 1000000000) with heq | ⟨x, hx, heq⟩
  · exact ⟨0, 0, by norm_num, by rw [heq]; push_cast; ring⟩
  · obtain ⟨hb1, hb2⟩ := mem_sweep_bounds lam step x hstep hx
    refine ⟨x - lam, -⌊x / 360⌋, ?_, ?_⟩
    · rw [abs_le]
      constructor <;> linarith
    · rw [heq]
      have := norm360_eq_floor x
      push_cast
      push_cast at this
      linarith [this]

theorem scanStep_skip (h : ℚ → AltAz) (st : ScanSt) (lam : ℚ)
    (hg : ¬ (45 < (h lam).az ∧ (h lam).az < 135)) : scanStep h st lam = st := by
  rw [scanStep_def, if_neg]
  intro hc
  exact hg ⟨hc.1, hc.2.1⟩

theorem foldl_scanStep_skip (h : ℚ → AltAz) :
    ∀ (l : List ℚ) (st : ScanSt),
      (∀ lam ∈ l, ¬ (45 < (h lam).az ∧ (h lam).az < 135)) →
      l.foldl (scanStep h) st = st := by
  intro l
  induction l with
  | nil => intro st _; rfl
  | cons a t ih =>
      intro st hg
      rw [List.foldl_cons, scanStep_skip h st a (hg a (List.mem_cons_self a t))]
      exact ih st (fun lam hm => hg lam (List.mem_cons_of_mem a hm))

/-- Claim C2, amended: when no scan sample passes the azimuth gate (in
particular in degenerate geometry with no eastern horizon crossing), the
coarse scan of `ascendantLongitude` keeps its fallback best longitude 0,
but the three refinement passes still run around 0, so the value finally
returned is only guaranteed to lie within 15° of 0 on the circle
(`norm360` of some `t` with `|t| ≤ 15`), not to equal 0. -/
theorem C2_amended (h : ℚ → AltAz)
    (hg : ∀ lam ∈ scanSamples, ¬ (45 < (h lam).az ∧ (h lam).az < 135)) :
    (scanBest h).bestLam = 0 ∧
      ∃ t : ℚ, |t| ≤ 15 ∧ ascendantLongitude h = norm360 t := by
  have hsb : scanBest h = scanInit := foldl_scanStep_skip h scanSamples scanInit hg
  constructor
  · rw [hsb]; rfl
  · obtain ⟨d1, k1, hd1, he1⟩ := localMin_close h ((scanBest h).bestLam) 1 (by norm_num)
    obtain ⟨d2, k2, hd2, he2⟩ :=
      localMin_close h (localMin h ((scanBest h).bestLam) 1) (1/5) (by norm_num)
    obtain ⟨d3, k3, hd3, he3⟩ :=
      localMin_close h (localMin h (localMin h ((scanBest h).bestLam) 1) (1/5)) (1/25)
        (by norm_num)
    refine ⟨d1 + d2 + d3, ?_, ?_⟩
    · calc |d1 + d2 + d3| ≤ |d1 + d2| + |d3| := abs_add _ _
        _ ≤ |d1| + |d2| + |d3| := by linarith [abs_add d1 d2]
        _ ≤ 15 := by linarith
    · show norm360 (refineLam h (scanBest h).bestLam) = _
      unfold refineLam
      rw [he3, he2, he1, hsb]
      show norm360 ((0 : ℚ) + d1 + 360 * (k1 : ℚ) + d2 + 360 * (k2 : ℚ) + d3 + 360 * (k3 : ℚ)) = _
      have harg : (0 : ℚ) + d1 + 360 * (k1 : ℚ) + d2 + 360 * (k2 : ℚ) + d3 + 360 * (k3 : ℚ)
          = (d1 + d2 + d3) + 360 * ((k1 + k2 + k3 : ℤ) : ℚ) := by
        push_cast
        ring
      rw [harg, norm360_add_int]

/-- A degenerate horizon backend: constant altitude 1 and azimuth 200,
so the ecliptic never crosses the horizon and no sample ever passes the
scan's azimuth gate. -/
def hConst : ℚ → AltAz := fun _ => ⟨1, 200⟩

theorem localScore_const (h : ℚ → AltAz) (v : AltAz) (hh : ∀ y, h y = v) (x : ℚ) :
    localScore h x = |v.alt| + (1/100) * |v.az - 90| := by
  unfold localScore
  rw [hh]

theorem foldl_localStep_const (h : ℚ → AltAz) (v : AltAz) (hh : ∀ y, h y = v) :
    ∀ (l : List ℚ) (p : ℚ × ℚ), p.2 = |v.alt| + (1/100) * |v.az - 90| →
      l.foldl (localStep h) p = p := by
  intro l
  induction l with
  | nil => intro p _; rfl
  | cons a t ih =>
      intro p hp
      have hstep : localStep h p a = p := by
        rw [localStep_def, localScore_const h v hh, if_neg]
        rw [hp]
        exact lt_irrefl _
      rw [List.foldl_cons, hstep]
      exact ih p hp

theorem localMin_const (h : ℚ → AltAz) (v : AltAz) (hh : ∀ y, h y = v)
    (hlt : |v.alt| + (1/100) * |v.az - 90| < 1000000000) (lam step : ℚ) :
    localMin h lam step = norm360 (lam - 5) := by
  unfold localMin sweep
  rw [List.range_succ_eq_map, List.map_cons, List.foldl_cons]
  have h0 : lam - 5 + step * ((0:ℕ):ℚ) = lam - 5 := by push_cast; ring
  rw [h0]
  have hstep1 : localStep h (lam, 1000000000) (lam - 5) =
      (norm360 (lam - 5), |v.alt| + (1/100) * |v.az - 90|) := by
    rw [localStep_def, localScore_const h v hh, if_pos hlt]
  rw [hstep1, foldl_localStep_const h v hh _ _ rfl]

theorem hConst_const : ∀ y, hConst y = ⟨1, 200⟩ := fun _ => rfl

theorem hConst_gate : ∀ lam ∈ scanSamples, ¬ (45 < (hConst lam).az ∧ (hConst lam).az < 135) := by
  intro lam _
  intro hc
  have : (200:ℚ) < 135 := hc.2
  norm_num at this

theorem hConst_asc : ascendantLongitude hConst = 345 := by
  have hsb : scanBest hConst = scanInit := foldl_scanStep_skip hConst scanSamples scanInit hConst_gate
  have hscore : |(AltAz.mk 1 200).alt| + (1/100) * |(AltAz.mk 1 200).az - 90| < 1000000000 := by
    norm_num
  show norm360 (refineLam hConst (scanBest hConst).bestLam) = 345
  unfold refineLam
  rw [hsb]
  show norm360 (localMin hConst (localMin hConst (localMin hConst 0 1) (1/5)) (1/25)) = 345
  rw [localMin_const hConst _ hConst_const hscore 0 1]
  have h1 : norm360 (0 - 5 : ℚ) = 355 := by
    rw [show (0 - 5 : ℚ) = -5 by norm_num, norm360_neg_seg (-5) (by norm_num) (by norm_num)]
    norm_num
  rw [h1, localMin_const hConst _ hConst_const hscore 355 (1/5)]
  have h2 : norm360 (355 - 5 : ℚ) = 350 := by
    rw [show (355 - 5 : ℚ) = 350 by norm_num]
    exact norm360_eq_self 350 (by norm_num) (by norm_num)
  rw [h2, localMin_const hConst _ hConst_const hscore 350 (1/25)]
  have h3 : norm360 (350 - 5 : ℚ) = 345 := by
    rw [show (350 - 5 : ℚ) = 345 by norm_num]
    exact norm360_eq_self 345 (by norm_num) (by norm_num)
  rw [h3]
  exact norm360_eq_self 345 (by norm_num) (by norm_num)

/-- Counterexample to claim C2: for the degenerate horizon backend
`hConst` the 5° scan finds no horizon crossing at all (the altitude is
constant, and no sample passes the azimuth gate), yet the solver does
not return 0: the refinement stage drifts away from the fallback and
the function returns 345. -/
theorem C2_counterexample :
    (∀ lam ∈ scanSamples, ¬ (45 < (hConst lam).az ∧ (hConst lam).az < 135)) ∧
    (∀ i : ℕ, ¬ crossingAt hConst i) ∧
    ascendantLongitude hConst = 345 ∧ (345 : ℚ) ≠ 0 := by
  refine ⟨hConst_gate, ?_, hConst_asc, by norm_num⟩
  intro i hc
  have : (1 : ℚ) * 1 < 0 := hc
  norm_num at this

/-- Witness for the amended C2 theorem at the concrete degenerate
backend `hConst` (which satisfies its gate hypothesis). -/
theorem C2_amended_witness :
    (scanBest hConst).bestLam = 0 ∧
      ∃ t : ℚ, |t| ≤ 15 ∧ ascendantLongitude hConst = norm360 t :=
  C2_amended hConst hConst_gate

/-- A horizon backend with two crossings, both with azimuth inside the
scan's (45,135) gate: one bracketed by samples 5 and 10 at azimuth 130,
one bracketed by samples 45 and 50 at azimuth 90.  The first crossing
has the smaller altitude score at its bracketing sample, the second has
the azimuth closer to 90. -/
def hTwoCrossings : ℚ → AltAz := fun lam =>
  if lam = 5 then ⟨-1/10, 130⟩
  else if lam = 10 then ⟨1/50, 130⟩
  else if lam = 45 then ⟨-1, 90⟩
  else if lam = 50 then ⟨1/2, 90⟩
  else ⟨5, 200⟩

set_option maxRecDepth 100000

theorem hTwoCrossings_scan : scanBest hTwoCrossings = ⟨1/50, 40, 10⟩ := by
  norm_num [scanBest, scanSamples, scanStep, hTwoCrossings, List.range_succ, scanInit,
    abs_of_pos, abs_of_nonpos, abs_of_nonneg]

theorem floorTen_one : (⌊(10:ℚ) / 1⌋).toNat = 10 := by
  rw [show ⌊(10:ℚ) / 1⌋ = 10 by norm_num]
  rfl

theorem floorTen_five : (⌊(10:ℚ) / (1/5)⌋).toNat = 50 := by
  rw [show ⌊(10:ℚ) / (1/5)⌋ = 50 by norm_num]
  rfl

theorem floorTen_twentyfive : (⌊(10:ℚ) / (1/25)⌋).toNat = 250 := by
  rw [show ⌊(10:ℚ) / (1/25)⌋ = 250 by norm_num]
  rfl

theorem htc_localScore_ten (x : ℚ) (hn : norm360 x = 10) :
    localScore hTwoCrossings x = 21/50 := by
  unfold localScore
  rw [hn]
  norm_num [hTwoCrossings, abs_of_pos, abs_of_nonneg]

theorem htc_localMin (step : ℚ) (hstep : 0 < step)
    (hmem : ∃ x ∈ sweep 10 step, norm360 x = 10) :
    localMin hTwoCrossings 10 step = 10 := by
  obtain ⟨x₀, hx₀, hn₀⟩ := hmem
  have hle := foldl_localStep_snd_le_mem hTwoCrossings (sweep 10 step) (10, 1000000000) x₀ hx₀
  rw [htc_localScore_ten x₀ hn₀] at hle
  unfold localMin
  rcases foldl_localStep_fst hTwoCrossings (sweep 10 step) (10, 1000000000) with heq | ⟨x, hx, heq⟩
  · rw [heq] at hle
    norm_num at hle
  · rw [heq] at hle ⊢
    obtain ⟨hb1, hb2⟩ := mem_sweep_bounds 10 step x hstep hx
    have hnx : norm360 x = x := norm360_eq_self x (by linarith) (by linarith)
    by_cases hx5 : x = 5
    · exfalso
      unfold localScore at hle
      rw [hnx, hx5] at hle
      norm_num [hTwoCrossings, abs_of_nonpos, abs_of_nonneg] at hle
    · by_cases hx10 : x = 10
      · rw [hnx, hx10]
      · exfalso
        have hx45 : x ≠ 45 := by intro hcon; rw [hcon] at hb2; norm_num at hb2
        have hx50 : x ≠ 50 := by intro hcon; rw [hcon] at hb2; norm_num at hb2
        unfold localScore at hle
        rw [hnx] at hle
        rw [show hTwoCrossings x = ⟨5, 200⟩ by
          unfold hTwoCrossings
          rw [if_neg hx5, if_neg hx10, if_neg hx45, if_neg hx50]] at hle
        norm_num at hle

theorem htc_mem_one : ∃ x ∈ sweep 10 1, norm360 x = 10 := by
  refine ⟨10, ?_, norm360_eq_self 10 (by norm_num) (by norm_num)⟩
  unfold sweep
  apply List.mem_map.mpr
  refine ⟨5, ?_, by push_cast; norm_num⟩
  apply List.mem_range.mpr
  rw [floorTen_one]
  norm_num

theorem htc_mem_five : ∃ x ∈ sweep 10 (1/5), norm360 x = 10 := by
  refine ⟨10, ?_, norm360_eq_self 10 (by norm_num) (by norm_num)⟩
  unfold sweep
  apply List.mem_map.mpr
  refine ⟨25, ?_, by push_cast; norm_num⟩
  apply List.mem_range.mpr
  rw [floorTen_five]
  norm_num

theorem htc_mem_twentyfive : ∃ x ∈ sweep 10 (1/25), norm360 x = 10 := by
  refine ⟨10, ?_, norm360_eq_self 10 (by norm_num) (by norm_num)⟩
  unfold sweep
  apply List.mem_map.mpr
  refine ⟨125, ?_, by push_cast; norm_num⟩
  apply List.mem_range.mpr
  rw [floorTen_twentyfive]
  norm_num

theorem htc_asc : ascendantLongitude hTwoCrossings = 10 := by
  show norm360 (refineLam hTwoCrossings (scanBest hTwoCrossings).bestLam) = 10
  rw [hTwoCrossings_scan]
  show norm360 (refineLam hTwoCrossings 10) = 10
  unfold refineLam
  rw [htc_localMin 1 (by norm_num) htc_mem_one,
    htc_localMin (1/5) (by norm_num) htc_mem_five,
    htc_localMin (1/25) (by norm_num) htc_mem_twentyfive]
  exact norm360_eq_self 10 (by norm_num) (by norm_num)

/-- Counterexample to claim C1: the scan of `ascendantLongitude` over
the backend `hTwoCrossings` finds two horizon crossings (altitude sign
changes between samples 5–10 and between samples 45–50), yet it selects
and returns longitude 10, at the crossing whose azimuth 130 has error
|130−90| = 40, strictly larger than the azimuth error 0 of the other
crossing at azimuth 90: the returned crossing is not the one whose
azimuth is closest to 90°. -/
theorem C1_counterexample :
    crossingAt hTwoCrossings 1 ∧ crossingAt hTwoCrossings 9 ∧
    (scanBest hTwoCrossings).bestLam = 10 ∧
    ascendantLongitude hTwoCrossings = 10 ∧
    |(hTwoCrossings 10).az - 90| > |(hTwoCrossings 45).az - 90| := by
  refine ⟨?_, ?_, ?_, htc_asc, ?_⟩
  · unfold crossingAt
    norm_num [hTwoCrossings]
  · unfold crossingAt
    norm_num [hTwoCrossings]
  · rw [hTwoCrossings_scan]
  · norm_num [hTwoCrossings]

theorem scanStep_spike_hit (h : ℚ → AltAz) (s : ℚ) (Hs : h s = ⟨0, 90⟩) :
    scanStep h scanInit s = ⟨0, 0, s⟩ := by
  rw [scanStep_def, Hs]
  norm_num [scanInit]

theorem scanStep_spike_stay (h : ℚ → AltAz) (s : ℚ) (Hs : h s = ⟨0, 90⟩)
    (Hb : ∀ y, y ≠ s → h y = ⟨1000, 200⟩) :
    ∀ y, scanStep h ⟨0, 0, s⟩ y = ⟨0, 0, s⟩ := by
  intro y
  by_cases hy : y = s
  · subst hy
    rw [scanStep_def, Hs]
    norm_num
  · rw [scanStep_def, Hb y hy]
    norm_num

theorem foldl_scanStep_spike_stay (h : ℚ → AltAz) (s : ℚ) (Hs : h s = ⟨0, 90⟩)
    (Hb : ∀ y, y ≠ s → h y = ⟨1000, 200⟩) :
    ∀ l : List ℚ, l.foldl (scanStep h) ⟨0, 0, s⟩ = ⟨0, 0, s⟩ := by
  intro l
  induction l with
  | nil => rfl
  | cons a t ih =>
      rw [List.foldl_cons, scanStep_spike_stay h s Hs Hb a]
      exact ih

theorem spike_scan (h : ℚ → AltAz) (s : ℚ) (Hs : h s = ⟨0, 90⟩)
    (Hb : ∀ y, y ≠ s → h y = ⟨1000, 200⟩) :
    ∀ l : List ℚ, s ∈ l → l.foldl (scanStep h) scanInit = ⟨0, 0, s⟩ := by
  intro l
  induction l with
  | nil => intro hm; exact absurd hm (List.not_mem_nil s)
  | cons a t ih =>
      intro hm
      by_cases ha : a = s
      · subst ha
        rw [List.foldl_cons, scanStep_spike_hit h a Hs]
        exact foldl_scanStep_spike_stay h a Hs Hb t
      · have hgate : ¬ (45 < (h a).az ∧ (h a).az < 135) := by
          rw [Hb a ha]
          norm_num
        rw [List.foldl_cons, scanStep_skip h scanInit a hgate]
        rcases List.mem_cons.mp hm with heq | hmem
        · exact absurd heq.symm ha
        · exact ih hmem

theorem spike_localMin (h : ℚ → AltAz) (s step : ℚ) (Hs : h s = ⟨0, 90⟩)
    (Hb : ∀ y, y ≠ s → h y = ⟨1000, 200⟩)
    (hmem : ∃ x ∈ sweep s step, norm360 x = s) :
    localMin h s step = s := by
  obtain ⟨x₀, hx₀, hn₀⟩ := hmem
  have hsc₀ : localScore h x₀ = 0 := by
    unfold localScore
    rw [hn₀, Hs]
    norm_num
  have hle := foldl_localStep_snd_le_mem h (sweep s step) (s, 1000000000) x₀ hx₀
  rw [hsc₀] at hle
  unfold localMin
  rcases foldl_localStep_fst h (sweep s step) (s, 1000000000) with heq | ⟨x, hx, heq⟩
  · rw [heq] at hle
    norm_num at hle
  · rw [heq] at hle ⊢
    by_cases hxs : norm360 x = s
    · exact hxs
    · exfalso
      unfold localScore at hle
      rw [Hb (norm360 x) hxs] at hle
      norm_num at hle

theorem spike_asc (h : ℚ → AltAz) (s : ℚ) (Hs : h s = ⟨0, 90⟩)
    (Hb : ∀ y, y ≠ s → h y = ⟨1000, 200⟩)
    (hs0 : 0 ≤ s) (hs1 : s < 360) (hsc : s ∈ scanSamples)
    (hm1 : ∃ x ∈ sweep s 1, norm360 x = s)
    (hm5 : ∃ x ∈ sweep s (1/5), norm360 x = s)
    (hm25 : ∃ x ∈ sweep s (1/25), norm360 x = s) :
    ascendantLongitude h = s := by
  have hscan : scanBest h = ⟨0, 0, s⟩ := spike_scan h s Hs Hb scanSamples hsc
  show norm360 (refineLam h (scanBest h).bestLam) = s
  rw [hscan]
  show norm360 (refineLam h s) = s
  unfold refineLam
  rw [spike_localMin h s 1 Hs Hb hm1, spike_localMin h s (1/5) Hs Hb hm5,
    spike_localMin h s (1/25) Hs Hb hm25]
  exact norm360_eq_self s hs0 hs1

/-- The latitude clamp named by the specification:
`max(−89.9999, min(89.9999, latitude))`. -/
def clampLat (x : ℚ) : ℚ := max (-(899999/10000)) (min (899999/10000) x)

/-- A horizon backend whose replies depend on the latitude it is queried
at: at latitudes of 90° and above the only gated sample is 250, below
that the only gated sample is 50.  The real horizon geometry likewise
differs between latitude 90° and latitude 89.9999°. -/
def hLatSensitive : ℚ → ℚ → AltAz := fun lat lam =>
  if 90 ≤ lat then (if lam = 250 then ⟨0, 90⟩ else ⟨1000, 200⟩)
  else (if lam = 50 then ⟨0, 90⟩ else ⟨1000, 200⟩)

theorem clampLat_ninety : clampLat 90 = 899999/10000 := by
  unfold clampLat
  rw [min_eq_left (by norm_num : (899999/10000 : ℚ) ≤ 90)]
  rw [max_eq_right (by norm_num : (-(899999/10000) : ℚ) ≤ 899999/10000)]

theorem mem_scanSamples_fifty : (250 : ℚ) ∈ scanSamples := by
  unfold scanSamples
  apply List.mem_map.mpr
  exact ⟨50, List.mem_range.mpr (by norm_num), by push_cast; norm_num⟩

theorem mem_scanSamples_ten : (50 : ℚ) ∈ scanSamples := by
  unfold scanSamples
  apply List.mem_map.mpr
  exact ⟨10, List.mem_range.mpr (by norm_num), by push_cast; norm_num⟩

theorem spike_sweep_mem (s : ℚ) (hs0 : 0 ≤ s) (hs1 : s < 360) :
    (∃ x ∈ sweep s 1, norm360 x = s) ∧
    (∃ x ∈ sweep s (1/5), norm360 x = s) ∧
    (∃ x ∈ sweep s (1/25), norm360 x = s) := by
  refine ⟨⟨s, ?_, norm360_eq_self s hs0 hs1⟩, ⟨s, ?_, norm360_eq_self s hs0 hs1⟩,
    ⟨s, ?_, norm360_eq_self s hs0 hs1⟩⟩
  · unfold sweep
    apply List.mem_map.mpr
    refine ⟨5, ?_, by push_cast; ring⟩
    apply List.mem_range.mpr
    rw [floorTen_one]
    norm_num
  · unfold sweep
    apply List.mem_map.mpr
    refine ⟨25, ?_, by push_cast; ring⟩
    apply List.mem_range.mpr
    rw [floorTen_five]
    norm_num
  · unfold sweep
    apply List.mem_map.mpr
    refine ⟨125, ?_, by push_cast; ring⟩
    apply List.mem_range.mpr
    rw [floorTen_twentyfive]
    norm_num

/-- Counterexample to claim C3: no latitude clamp exists in the solver.
With the latitude-sensitive horizon backend `hLatSensitive`, the solver
returns 250 at latitude 90° but 50 at the clamped latitude 89.9999°, so
its result at a latitude is not the result at the clamped latitude. -/
theorem C3_counterexample :
    ascendantLongitudeObs hLatSensitive 90 = 250 ∧
    ascendantLongitudeObs hLatSensitive (clampLat 90) = 50 ∧
    ascendantLongitudeObs hLatSensitive 90 ≠ ascendantLongitudeObs hLatSensitive (clampLat 90) := by
  have hb1 : ascendantLongitudeObs hLatSensitive 90 = 250 := by
    show ascendantLongitude (hLatSensitive 90) = 250
    obtain ⟨hm1, hm5, hm25⟩ := spike_sweep_mem 250 (by norm_num) (by norm_num)
    apply spike_asc (hLatSensitive 90) 250 ?_ ?_ (by norm_num) (by norm_num)
      mem_scanSamples_fifty hm1 hm5 hm25
    · unfold hLatSensitive
      rw [if_pos (by norm_num : (90:ℚ) ≤ 90), if_pos rfl]
    · intro y hy
      unfold hLatSensitive
      rw [if_pos (by norm_num : (90:ℚ) ≤ 90), if_neg hy]
  have hb2 : ascendantLongitudeObs hLatSensitive (clampLat 90) = 50 := by
    show ascendantLongitude (hLatSensitive (clampLat 90)) = 50
    obtain ⟨hm1, hm5, hm25⟩ := spike_sweep_mem 50 (by norm_num) (by norm_num)
    apply spike_asc (hLatSensitive (clampLat 90)) 50 ?_ ?_ (by norm_num) (by norm_num)
      mem_scanSamples_ten hm1 hm5 hm25
    · unfold hLatSensitive
      rw [clampLat_ninety, if_neg (by norm_num : ¬ (90:ℚ) ≤ 899999/10000), if_pos rfl]
    · intro y hy
      unfold hLatSensitive
      rw [clampLat_ninety, if_neg (by norm_num : ¬ (90:ℚ) ≤ 899999/10000), if_neg hy]
  refine ⟨hb1, hb2, ?_⟩
  rw [hb1, hb2]
  norm_num

/-- Claim C3, amended: the solver applies no latitude clamp of its own;
its result depends on the latitude only through the horizon backend
queried at the raw latitude, so the result at a latitude agrees with the
result at the clamped latitude exactly when the backend replies
identically at both latitudes — which at the poles it need not. -/
theorem C3_amended (h : ℚ → ℚ → AltAz) (lat : ℚ) (hh : h lat = h (clampLat lat)) :
    ascendantLongitudeObs h lat = ascendantLongitudeObs h (clampLat lat) := by
  unfold ascendantLongitudeObs
  rw [hh]

/-- A horizon backend that ignores the latitude entirely. -/
def hLatConst : ℚ → ℚ → AltAz := fun _ _ => ⟨1, 200⟩

/-- Witness for the amended C3 theorem at latitude 90° and a backend
that replies identically at 90° and at the clamped 89.9999°. -/
theorem C3_amended_witness :
    hLatConst 90 = hLatConst (clampLat 90) ∧
      ascendantLongitudeObs hLatConst 90 = ascendantLongitudeObs hLatConst (clampLat 90) :=
  ⟨rfl, C3_amended hLatConst 90 rfl⟩

/-- A JavaScript number: a finite value (exact rational model), NaN, or
a signed infinity. -/
inductive JSNum where
  | num : ℚ → JSNum
  | nan : JSNum
  | inf : JSNum
  | ninf : JSNum
deriving DecidableEq

/-- `Number.isFinite`. -/
def JSNum.isFinite : JSNum → Bool
  | .num _ => true
  | _ => false

/-- The input sanitization of `computeAscendantDeg`:
`Number.isFinite(+x) ? +x : 0`. -/
def JSNum.finiteOr0 : JSNum → ℚ
  | .num q => q
  | _ => 0

/-- `x % n` for a finite positive modulus `n`: NaN and the infinities
give NaN. -/
def JSNum.modC (x : JSNum) (n : ℚ) : JSNum :=
  match x with
  | .num q => .num (jsRem q n)
  | _ => .nan

/-- The JavaScript comparison `x < 0` (false on NaN). -/
def JSNum.ltZero : JSNum → Bool
  | .num q => decide (q < 0)
  | .ninf => true
  | _ => false

/-- `x + c` for a finite constant `c`. -/
def JSNum.addC (x : JSNum) (c : ℚ) : JSNum :=
  match x with
  | .num q => .num (q + c)
  | .nan => .nan
  | .inf => .inf
  | .ninf => .ninf

/-- `x / n` for a finite positive constant `n`. -/
def JSNum.divC (x : JSNum) (n : ℚ) : JSNum :=
  match x with
  | .num q => .num (q / n)
  | .nan => .nan
  | .inf => .inf
  | .ninf => .ninf

/-- `x * c` for a finite positive constant `c`. -/
def JSNum.mulC (x : JSNum) (c : ℚ) : JSNum :=
  match x with
  | .num q => .num (q * c)
  | .nan => .nan
  | .inf => .inf
  | .ninf => .ninf

/-- `Math.floor`. -/
def JSNum.floorJ : JSNum → JSNum
  | .num q => .num (⌊q⌋ : ℤ)
  | x => x

/-- JavaScript subtraction on possibly non-finite numbers. -/
def JSNum.subJ : JSNum → JSNum → JSNum
  | .num a, .num b => .num (a - b)
  | .inf, .num _ => .inf
  | .inf, .ninf => .inf
  | .inf, .inf => .nan
  | .ninf, .num _ => .ninf
  | .ninf, .inf => .ninf
  | .ninf, .ninf => .nan
  | .num _, .inf => .ninf
  | .num _, .ninf => .inf
  | .nan, _ => .nan
  | _, .nan => .nan

/-- `norm360` acting on a JavaScript number: a non-finite input
propagates NaN through `%` and the negative branch is never taken. -/
def norm360J (d : JSNum) : JSNum :=
  let x := d.modC 360
  if x.ltZero then x.addC 360 else x

/-- The 12 sign labels of the source `SIGNS` table (English name and
Devanagari short label). -/
def SIGNS : List (String × String) :=
  [("Aries", "मेष"),
   ("Taurus", "वृषभ"),
   ("Gemini", "मिथुन"),
   ("Cancer", "कर्क"),
   ("Leo", "सिंह"),
   ("Virgo", "कन्या"),
   ("Libra", "तुला"),
   ("Scorpio", "वृश्चिक"),
   ("Sagittarius", "धनु"),
   ("Capricorn", "मकर"),
   ("Aquarius", "कुंभ"),
   ("Pisces", "मीन")]

/-- `SIGNS[idx]` under JavaScript array indexing: only an integer-valued
finite index inside the array bounds hits an element; every other index
reads `undefined`. -/
def signLookup (idx : JSNum) : Option (String × String) :=
  match idx with
  | .num q => if 0 ≤ q ∧ q < 12 ∧ q.den = 1 then SIGNS.get? q.num.toNat else none
  | _ => none

/-- The record returned by `zodiacBreakdown`. -/
structure ZBreak where
  signIndex : JSNum
  sign : String
  signGlyph : String
  deg : JSNum
  min : JSNum
  raw : JSNum
deriving DecidableEq

/-- `zodiacBreakdown` from the source, on a JavaScript number.  When the
longitude is non-finite the sign index is NaN, `SIGNS[signIndex]` is
`undefined`, and reading `.name` from it throws: that failure is the
`none` result. -/
def zodiacBreakdown (longitudeDeg : JSNum) : Option ZBreak :=
  let lon := norm360J longitudeDeg
  let signIndex := (lon.divC 30).floorJ
  match signLookup signIndex with
  | none => none
  | some s =>
      let inSign := lon.modC 30
      let d := inSign.floorJ
      let m := ((inSign.subJ d).mulC 60).floorJ
      some ⟨signIndex, s.1, s.2, d, m, lon⟩

/-- The float trigonometry backend (`Math.sin`, `Math.cos`, `Math.tan`,
`Math.atan2`, `Math.PI`) used by `computeAscendantDeg`, abstracted. -/
structure Trig where
  sin : ℚ → ℚ
  cos : ℚ → ℚ
  tan : ℚ → ℚ
  atan2 : ℚ → ℚ → ℚ
  pi : ℚ

/-- The reply of `Astronomy.EarthTilt(date)`: each obliquity key is
present with a finite numeric value, or absent. -/
structure TiltInfo where
  obliq : Option ℚ
  obl : Option ℚ
  eps : Option ℚ

/-- The obliquity fallback chain of `computeAscendantDeg`: first finite
numeric key among `obliq`, `obl`, `eps`, else the constant 23.4392911. -/
def epsFromTilt (t : TiltInfo) : ℚ :=
  match t.obliq with
  | some v => v
  | none =>
      match t.obl with
      | some v => v
      | none =>
          match t.eps with
          | some v => v
          | none => 234392911/10000000

/-- `lstRadians` from the source, with the sidereal-time hours `sth`
supplied by the external `Astronomy.SiderealTime` (the `|| 0` on the
longitude is the identity on the finite value passed in). -/
def lstRadians (T : Trig) (sth : ℚ) (longitudeDeg : ℚ) : ℚ :=
  let lstDeg := sth * 15 + longitudeDeg
  let lstDeg2 := jsRem (jsRem lstDeg 360 + 360) 360
  lstDeg2 * T.pi / 180

/-- `computeAscendantDeg` from the source: sanitize the latitude and
longitude, resolve the obliquity, apply the closed-form
`atan2(sinθ·cosε + tanφ·sinε, cosθ)` and normalize into [0,360).
(The `!isFinite(λ)` guard is vacuous in the exact rational model, where
the backend is total.) -/
def computeAscendantDeg (T : Trig) (sth : ℚ) (tilt : TiltInfo)
    (latitudeDeg longitudeDeg : JSNum) : ℚ :=
  let lat := latitudeDeg.finiteOr0
  let lon := longitudeDeg.finiteOr0
  let epsDeg := epsFromTilt tilt
  let phi := lat * T.pi / 180
  let theta := lstRadians T sth lon
  let eps := epsDeg * T.pi / 180
  let y := T.sin theta * T.cos eps + T.tan phi * T.sin eps
  let x := T.cos theta
  let lam := T.atan2 y x * 180 / T.pi
  jsRem (lam + 360) 360

/-- Counterexample to claim C4: `zodiacBreakdown` has no numeric guard.
Applied to the non-finite longitude NaN it does not return a
well-defined breakdown: the sign lookup reads `undefined` and the
access to its `.name` throws, modelled as `none`. -/
theorem C4_counterexample :
    zodiacBreakdown JSNum.nan = none ∧ JSNum.nan.isFinite = false := ⟨rfl, rfl⟩

/-- Claim C4, amended: `computeAscendantDeg` does substitute 0 for a
non-finite latitude or longitude (its result only depends on the
sanitized finite values), but `zodiacBreakdown` applies no such guard:
on every non-finite longitude its sign lookup fails and no breakdown is
produced. -/
theorem C4_amended :
    (∀ (T : Trig) (sth : ℚ) (tilt : TiltInfo) (latJ lonJ : JSNum),
        computeAscendantDeg T sth tilt latJ lonJ =
          computeAscendantDeg T sth tilt (JSNum.num latJ.finiteOr0) (JSNum.num lonJ.finiteOr0)) ∧
    zodiacBreakdown JSNum.nan = none ∧
    zodiacBreakdown JSNum.inf = none ∧
    zodiacBreakdown JSNum.ninf = none := by
  refine ⟨?_, rfl, rfl, rfl⟩
  intro T sth tilt latJ lonJ
  cases latJ <;> cases lonJ <;> rfl

theorem computeAscendantDeg_shape (T : Trig) (sth : ℚ) (tilt : TiltInfo)
    (latJ lonJ : JSNum) :
    ∃ y x : ℚ, computeAscendantDeg T sth tilt latJ lonJ =
      jsRem (T.atan2 y x * 180 / T.pi + 360) 360 :=
  ⟨_, _, rfl⟩

theorem atan2_deg_bounds (T : Trig) (hpi : 0 < T.pi)
    (hatan : ∀ y x : ℚ, |T.atan2 y x| ≤ T.pi) (y x : ℚ) :
    -180 ≤ T.atan2 y x * 180 / T.pi ∧ T.atan2 y x * 180 / T.pi ≤ 180 := by
  obtain ⟨h1, h2⟩ := abs_le.mp (hatan y x)
  have hne : T.pi ≠ 0 := ne_of_gt hpi
  constructor
  · have hmul : -T.pi * 180 ≤ T.atan2 y x * 180 :=
      mul_le_mul_of_nonneg_right h1 (by norm_num)
    have hdiv : -T.pi * 180 / T.pi ≤ T.atan2 y x * 180 / T.pi :=
      (div_le_div_right hpi).mpr hmul
    have hval : -T.pi * 180 / T.pi = -180 := by
      field_simp
      ring
    linarith
  · have hmul : T.atan2 y x * 180 ≤ T.pi * 180 :=
      mul_le_mul_of_nonneg_right h2 (by norm_num)
    have hdiv : T.atan2 y x * 180 / T.pi ≤ T.pi * 180 / T.pi :=
      (div_le_div_right hpi).mpr hmul
    have hval : T.pi * 180 / T.pi = 180 := by field_simp
    linarith

/-- Claim C5: both ascendant variants return a value in [0, 360).  For
the closed-form `computeAscendantDeg` this holds for every instant,
observer and obliquity reply, given the two facts about the float
backend (`Math.PI` is positive and `Math.atan2` lands in [−π, π]); for
the scan-based `ascendantLongitude` it holds for every horizon backend
unconditionally. -/
theorem C5_range (T : Trig) (hpi : 0 < T.pi)
    (hatan : ∀ y x : ℚ, |T.atan2 y x| ≤ T.pi) :
    (∀ (sth : ℚ) (tilt : TiltInfo) (latJ lonJ : JSNum),
        0 ≤ computeAscendantDeg T sth tilt latJ lonJ ∧
          computeAscendantDeg T sth tilt latJ lonJ < 360) ∧
    (∀ h : ℚ → AltAz,
        0 ≤ ascendantLongitude h ∧ ascendantLongitude h < 360) := by
  constructor
  · intro sth tilt latJ lonJ
    obtain ⟨y, x, hshape⟩ := computeAscendantDeg_shape T sth tilt latJ lonJ
    rw [hshape]
    obtain ⟨hb1, hb2⟩ := atan2_deg_bounds T hpi hatan y x
    exact ⟨jsRem_nonneg _ (by linarith), jsRem_lt_360 _⟩
  · intro h
    exact ⟨norm360_nonneg _, norm360_lt _⟩

/-- A trivial but admissible float backend for the C5 witness: all
trigonometric replies are 0 and π is approximated by 3. -/
def trigZero : Trig := ⟨fun _ => 0, fun _ => 0, fun _ => 0, fun _ _ => 0, 3⟩

/-- Witness for C5 at the backend `trigZero` (whose hypotheses hold) and
at the degenerate horizon backend `hConst`. -/
theorem C5_range_witness :
    (0 ≤ computeAscendantDeg trigZero 0 ⟨none, none, none⟩ (JSNum.num 0) (JSNum.num 0) ∧
      computeAscendantDeg trigZero 0 ⟨none, none, none⟩ (JSNum.num 0) (JSNum.num 0) < 360) ∧
    (0 ≤ ascendantLongitude hConst ∧ ascendantLongitude hConst < 360) :=
  ⟨(C5_range trigZero (by norm_num [trigZero])
      (fun y x => by norm_num [trigZero])).1 0 ⟨none, none, none⟩ (JSNum.num 0) (JSNum.num 0),
   (C5_range trigZero (by norm_num [trigZero])
      (fun y x => by norm_num [trigZero])).2 hConst⟩

/-- `NAK_SIZE = 360/27` (13°20′ per nakshatra). -/
def NAK_SIZE : ℚ := 360 / 27

/-- `PADA_SIZE = NAK_SIZE/4` (3°20′ per pada). -/
def PADA_SIZE : ℚ := NAK_SIZE / 4

/-- The 27 nakshatra labels of the source `NAKSHATRAS` table (English
name and Devanagari). -/
def NAKSHATRAS : List (String × String) :=
  [("Ashwini", "अश्विनी"),
   ("Bharani", "भरणी"),
   ("Krittika", "कृत्तिका"),
   ("Rohini", "रोहिणी"),
   ("Mrigashira", "मृगशीर्षा"),
   ("Ardra", "आर्द्रा"),
   ("Punarvasu", "पुनर्वसु"),
   ("Pushya", "पुष्य"),
   ("Ashlesha", "आश्लेषा"),
   ("Magha", "मघा"),
   ("Purva Phalguni", "पूर्वफल्गुनी"),
   ("Uttara Phalguni", "उत्तरफल्गुनी"),
   ("Hasta", "हस्त"),
   ("Chitra", "चित्रा"),
   ("Swati", "स्वाती"),
   ("Vishakha", "विशाखा"),
   ("Anuradha", "अनुराधा"),
   ("Jyeshtha", "ज्येष्ठा"),
   ("Mula", "मूला"),
   ("Purva Ashadha", "पूर्वाषाढ़ा"),
   ("Uttara Ashadha", "उत्तराषाढ़ा"),
   ("Shravana", "श्रवण"),
   ("Dhanishta", "धनिष्टा"),
   ("Shatabhisha", "शतभिषा"),
   ("Purva Bhadrapada", "पूर्वभाद्रपदा"),
   ("Uttara Bhadrapada", "उत्तरभाद्रपदा"),
   ("Revati", "रेवती")]

/-- The record returned by `nakshatraOf`. -/
structure NakshatraInfo where
  index : ℤ
  name : String
  dev : String
  pada : ℤ
deriving DecidableEq

/-- `nakshatraOf` from the source.  The finite rational input always
produces an in-range index, but the JavaScript array read
`NAKSHATRAS[idx]` is kept explicit: an out-of-range index would read
`undefined` and fail, modelled as `none`. -/
def nakshatraOf (siderealLon : ℚ) : Option NakshatraInfo :=
  let lon := norm360 siderealLon
  let idx : ℤ := ⌊lon / NAK_SIZE⌋
  let within := lon - (idx : ℚ) * NAK_SIZE
  let pada := ⌊within / PADA_SIZE⌋ + 1
  if idx < 0 then none
  else
    match NAKSHATRAS.get? idx.toNat with
    | none => none
    | some item => some ⟨idx, item.1, item.2, pada⟩

/-- Claim C7: for every finite longitude the nakshatra index is
`⌊norm360 L / (360/27)⌋` and lies in 0..26, the pada is
`⌊remainder / (360/27/4)⌋ + 1` and lies in 1..4; at L = 0° the result is
index 0 with pada 1, and at L = 359.99° it is index 26 (Revati) with
pada 4. -/
theorem C7_nakshatra :
    (∀ L : ℚ, ∃ info : NakshatraInfo,
        nakshatraOf L = some info ∧
        info.index = ⌊norm360 L / NAK_SIZE⌋ ∧
        0 ≤ info.index ∧ info.index ≤ 26 ∧
        info.pada = ⌊(norm360 L - (info.index : ℚ) * NAK_SIZE) / PADA_SIZE⌋ + 1 ∧
        1 ≤ info.pada ∧ info.pada ≤ 4) ∧
    (nakshatraOf 0).map (fun i => (i.index, i.pada)) = some (0, 1) ∧
    (nakshatraOf (35999/100)).map (fun i => (i.index, i.name, i.pada)) =
      some (26, "Revati", 4) := by
  refine ⟨?_, ?_, ?_⟩
  · intro L
    have h0 : 0 ≤ norm360 L := norm360_nonneg L
    have h1 : norm360 L < 360 := norm360_lt L
    have hNAK : (0:ℚ) < NAK_SIZE := by norm_num [NAK_SIZE]
    have hPADA : (0:ℚ) < PADA_SIZE := by norm_num [NAK_SIZE, PADA_SIZE]
    have hidx0 : 0 ≤ ⌊norm360 L / NAK_SIZE⌋ :=
      Int.floor_nonneg.mpr (div_nonneg h0 (le_of_lt hNAK))
    have hidxlt : ⌊norm360 L / NAK_SIZE⌋ < 27 := by
      rw [Int.floor_lt]
      push_cast
      rw [div_lt_iff hNAK]
      norm_num [NAK_SIZE]
      linarith
    have htn : (⌊norm360 L / NAK_SIZE⌋).toNat < NAKSHATRAS.length := by
      rw [show NAKSHATRAS.length = 27 from rfl]
      omega
    have hget := List.get?_eq_get htn
    have hfle : ((⌊norm360 L / NAK_SIZE⌋ : ℤ) : ℚ) ≤ norm360 L / NAK_SIZE := Int.floor_le _
    have hflt : norm360 L / NAK_SIZE < (⌊norm360 L / NAK_SIZE⌋ : ℚ) + 1 :=
      Int.lt_floor_add_one _
    have hw0 : 0 ≤ norm360 L - (⌊norm360 L / NAK_SIZE⌋ : ℚ) * NAK_SIZE := by
      rw [le_div_iff hNAK] at hfle
      linarith
    have hw1 : norm360 L - (⌊norm360 L / NAK_SIZE⌋ : ℚ) * NAK_SIZE < NAK_SIZE := by
      rw [div_lt_iff hNAK] at hflt
      linarith
    have hp0 : 0 ≤ ⌊(norm360 L - (⌊norm360 L / NAK_SIZE⌋ : ℚ) * NAK_SIZE) / PADA_SIZE⌋ :=
      Int.floor_nonneg.mpr (div_nonneg hw0 (le_of_lt hPADA))
    have hp3 : ⌊(norm360 L - (⌊norm360 L / NAK_SIZE⌋ : ℚ) * NAK_SIZE) / PADA_SIZE⌋ < 4 := by
      rw [Int.floor_lt]
      push_cast
      rw [div_lt_iff hPADA]
      have : NAK_SIZE = 4 * PADA_SIZE := by norm_num [NAK_SIZE, PADA_SIZE]
      linarith
    refine ⟨⟨⌊norm360 L / NAK_SIZE⌋,
        (NAKSHATRAS.get ⟨(⌊norm360 L / NAK_SIZE⌋).toNat, htn⟩).1,
        (NAKSHATRAS.get ⟨(⌊norm360 L / NAK_SIZE⌋).toNat, htn⟩).2,
        ⌊(norm360 L - (⌊norm360 L / NAK_SIZE⌋ : ℚ) * NAK_SIZE) / PADA_SIZE⌋ + 1⟩,
      ?_,
      rfl,
      hidx0,
      (by show ⌊norm360 L / NAK_SIZE⌋ ≤ 26; omega),
      rfl,
      (by show 1 ≤ ⌊(norm360 L - (⌊norm360 L / NAK_SIZE⌋ : ℚ) * NAK_SIZE) / PADA_SIZE⌋ + 1
          omega),
      (by show ⌊(norm360 L - (⌊norm360 L / NAK_SIZE⌋ : ℚ) * NAK_SIZE) / PADA_SIZE⌋ + 1 ≤ 4
          omega)⟩
    simp only [nakshatraOf]
    rw [if_neg (not_lt.mpr hidx0), hget]
  · have e0 : norm360 0 = 0 := norm360_eq_self 0 (le_refl 0) (by norm_num)
    simp only [nakshatraOf, e0]
    norm_num [NAK_SIZE, PADA_SIZE]
    exact ⟨⟨0, "Ashwini", "अश्विनी", 1⟩, rfl, rfl, rfl⟩
  · have e1 : norm360 (35999/100) = 35999/100 :=
      norm360_eq_self (35999/100) (by norm_num) (by norm_num)
    simp only [nakshatraOf, e1]
    norm_num [NAK_SIZE, PADA_SIZE]
    exact ⟨⟨26, "Revati", "रेवती", 4⟩, rfl, rfl, rfl, rfl⟩

/-- `hasAspect` from the source.  The `enabledAspects` object is its
list of (target angle, enabled flag) entries; the enabled keys are
filtered and parsed, and the pair is in aspect when the minimum angular
separation is within the orb of some enabled target. -/
def hasAspect (enabledAspects : List (ℚ × Bool)) (aspectOrb : ℚ) (a b : ℚ) : Bool :=
  let ang := min (norm360 (a - b)) (norm360 (b - a))
  ((enabledAspects.filter (fun kv => kv.2)).map (fun kv => kv.1)).any
    (fun target => decide (|ang - target| ≤ aspectOrb))

/-- Claim C9: geometric aspect detection is symmetric — for every
enabled-aspect configuration, orb and pair of longitudes,
`hasAspect a b = hasAspect b a`, because the angular separation
`min (norm360 (a−b)) (norm360 (b−a))` is invariant under swapping. -/
theorem C9_hasAspect_symm (enabledAspects : List (ℚ × Bool)) (aspectOrb : ℚ) (a b : ℚ) :
    hasAspect enabledAspects aspectOrb a b = hasAspect enabledAspects aspectOrb b a := by
  unfold hasAspect
  rw [min_comm]

/-- A plotted point of the wheel: identifying key, colour, the tropical
ecliptic longitude `elon`, the displayed longitude `lon`, and the
mutable `_bump` label offset (absent when never assigned). -/
structure Point where
  key : String
  color : String
  elon : ℚ
  lon : ℚ
  bump : Option ℕ
deriving DecidableEq

/-- The mutation `cur._bump = v`. -/
def setBump (p : Point) (v : ℕ) : Point := { p with bump := some v }

/-- Forget the `_bump` field (used to state what `resolveCollisions`
leaves untouched). -/
def eraseBump (p : Point) : Point := { p with bump := none }

/-- Tag each point with its position in the input array, modelling
JavaScript object identity across the sorted copy. -/
def withIdx : ℕ → List Point → List (ℕ × Point)
  | _, [] => []
  | i, p :: rest => (i, p) :: withIdx (i + 1) rest

/-- The comparator `(a, b) => a.lon - b.lon` of the sort. -/
def lonLe (a b : ℕ × Point) : Prop := a.2.lon ≤ b.2.lon

instance : DecidableRel lonLe := fun a b => inferInstanceAs (Decidable (a.2.lon ≤ b.2.lon))

/-- The main collision loop of `resolveCollisions`: walk the sorted
points once; when the gap `|norm360(cur.lon - prev.lon)|` is below the
threshold, set `cur._bump = (prev._bump || 0) + 1`. -/
def bumpGo (minSep : ℚ) (prev : ℕ × Point) : List (ℕ × Point) → List (ℕ × Point)
  | [] => [prev]
  | cur :: rest =>
      let gap := |norm360 (cur.2.lon - prev.2.lon)|
      let cur' := if gap < minSep then (cur.1, setBump cur.2 (prev.2.bump.getD 0 + 1)) else cur
      prev :: bumpGo minSep cur' rest

def bumpPass (minSep : ℚ) : List (ℕ × Point) → List (ℕ × Point)
  | [] => []
  | p :: rest => bumpGo minSep p rest

/-- The wraparound check of `resolveCollisions` between the last and the
first sorted point (only when more than one point is present). -/
def wrapAdjust (minSep : ℚ) : List (ℕ × Point) → List (ℕ × Point)
  | [] => []
  | [p] => [p]
  | first :: next :: rest =>
      match (next :: rest).getLast? with
      | none => first :: next :: rest
      | some last =>
          let wrapGap := |norm360 (first.2.lon + 360 - last.2.lon)|
          if wrapGap < minSep then
            (first.1, setBump first.2 (last.2.bump.getD 0 + 1)) :: next :: rest
          else first :: next :: rest

/-- Write the mutated points back into the original array order (the
JavaScript loop mutates the shared objects in place and returns the
original `points` array). -/
def applyBumps (m : List (ℕ × Point)) : ℕ → List Point → List Point
  | _, [] => []
  | i, p :: rest =>
      (match m.lookup i with
       | some q => q
       | none => p) :: applyBumps m (i + 1) rest

/-- `resolveCollisions` from the source: sort a copy of the points by
longitude, walk once assigning incrementing bump levels, apply the
wraparound check, and return the original array (whose shared objects
carry the mutated `_bump`). -/
def resolveCollisions (points : List Point) (minSepDeg : ℚ) : List Point :=
  let sorted := List.insertionSort lonLe (withIdx 0 points)
  let walked := wrapAdjust minSepDeg (bumpPass minSepDeg sorted)
  applyBumps walked 0 points

/-- Claim C8: three points at longitudes 10°, 11°, 12° with a 4° minimum
separation receive the increasing bump levels 0, 1, 2. -/
theorem C8_bumps :
    (resolveCollisions
        [⟨"Sun", "#ffb703", 10, 10, none⟩,
         ⟨"Moon", "#8ecae6", 11, 11, none⟩,
         ⟨"Mars", "#e63946", 12, 12, none⟩] 4).map (fun p => p.bump.getD 0) = [0, 1, 2] := by
  have g1 : |norm360 (1 : ℚ)| < 4 := by
    rw [norm360_eq_self 1 (by norm_num) (by norm_num)]
    norm_num
  have g3 : ¬ |norm360 (358 : ℚ)| < 4 := by
    rw [norm360_eq_self 358 (by norm_num) (by norm_num)]
    norm_num
  norm_num [resolveCollisions, withIdx, List.insertionSort, List.orderedInsert,
    bumpPass, bumpGo, wrapAdjust, applyBumps, lonLe, setBump, g1, g3,
    List.getLast?, List.lookup]
  simp

/-- Two indexed points agree on the index and on every field except
`_bump`. -/
def sameCore (a b : ℕ × Point) : Prop := a.1 = b.1 ∧ eraseBump a.2 = eraseBump b.2

theorem forall2_sameCore_refl : ∀ l : List (ℕ × Point), List.Forall₂ sameCore l l
  | [] => .nil
  | _ :: t => .cons ⟨rfl, rfl⟩ (forall2_sameCore_refl t)

theorem forall2_sameCore_trans {l1 l2 l3 : List (ℕ × Point)}
    (h12 : List.Forall₂ sameCore l1 l2) (h23 : List.Forall₂ sameCore l2 l3) :
    List.Forall₂ sameCore l1 l3 := by
  induction h12 generalizing l3 with
  | nil => cases h23; exact .nil
  | cons hab _ ih =>
      cases h23 with
      | cons hbc htail => exact .cons ⟨hab.1.trans hbc.1, hab.2.trans hbc.2⟩ (ih htail)

theorem forall2_sameCore_mem_right {l1 l2 : List (ℕ × Point)} {x : ℕ × Point}
    (h : List.Forall₂ sameCore l1 l2) (hm : x ∈ l2) : ∃ y ∈ l1, sameCore y x := by
  induction h with
  | nil => exact absurd hm (List.not_mem_nil x)
  | cons hab _ ih =>
      rcases List.mem_cons.mp hm with rfl | hm'
      · exact ⟨_, List.mem_cons_self _ _, hab⟩
      · obtain ⟨y, hy, hyx⟩ := ih hm'
        exact ⟨y, List.mem_cons_of_mem _ hy, hyx⟩

theorem bumpGo_forall2 (minSep : ℚ) :
    ∀ (l : List (ℕ × Point)) (p₀ p : ℕ × Point), sameCore p₀ p →
      List.Forall₂ sameCore (p₀ :: l) (bumpGo minSep p l) := by
  intro l
  induction l with
  | nil => intro p₀ p h; exact .cons h .nil
  | cons cur rest ih =>
      intro p₀ p h
      show List.Forall₂ sameCore (p₀ :: cur :: rest)
        (p :: bumpGo minSep
          (if |norm360 (cur.2.lon - p.2.lon)| < minSep then
            (cur.1, setBump cur.2 (p.2.bump.getD 0 + 1)) else cur) rest)
      refine List.Forall₂.cons h (ih cur _ ?_)
      split
      · exact ⟨rfl, rfl⟩
      · exact ⟨rfl, rfl⟩

theorem bumpPass_forall2 (minSep : ℚ) (l : List (ℕ × Point)) :
    List.Forall₂ sameCore l (bumpPass minSep l) := by
  cases l with
  | nil => exact .nil
  | cons p rest => exact bumpGo_forall2 minSep rest p p ⟨rfl, rfl⟩

theorem wrapAdjust_forall2 (minSep : ℚ) (l : List (ℕ × Point)) :
    List.Forall₂ sameCore l (wrapAdjust minSep l) := by
  match l with
  | [] => exact .nil
  | [p] => exact .cons ⟨rfl, rfl⟩ .nil
  | first :: next :: rest =>
      simp only [wrapAdjust]
      cases hlast : (next :: rest).getLast? with
      | none => exact forall2_sameCore_refl _
      | some lst =>
          show List.Forall₂ sameCore (first :: next :: rest)
            (if |norm360 (first.2.lon + 360 - lst.2.lon)| < minSep then
              (first.1, setBump first.2 (lst.2.bump.getD 0 + 1)) :: next :: rest
            else first :: next :: rest)
          by_cases hcond : |norm360 (first.2.lon + 360 - lst.2.lon)| < minSep
          · rw [if_pos hcond]
            exact .cons ⟨rfl, rfl⟩ (forall2_sameCore_refl _)
          · rw [if_neg hcond]
            exact forall2_sameCore_refl _

theorem withIdx_mem : ∀ (pts : List Point) (k i : ℕ) (p : Point),
    (i, p) ∈ withIdx k pts → ∃ j : ℕ, i = k + j ∧ pts.get? j = some p := by
  intro pts
  induction pts with
  | nil => intro k i p hm; exact absurd hm (List.not_mem_nil _)
  | cons q rest ih =>
      intro k i p hm
      rcases List.mem_cons.mp hm with heq | hm'
      · obtain ⟨h1, h2⟩ := Prod.mk.injEq i p k q ▸ heq
        exact ⟨0, by omega, by rw [h2]; rfl⟩
      · obtain ⟨j, hj, hg⟩ := ih (k + 1) i p hm'
        exact ⟨j + 1, by omega, by simpa using hg⟩

theorem lookup_mem : ∀ (m : List (ℕ × Point)) (i : ℕ) (q : Point),
    List.lookup i m = some q → (i, q) ∈ m := by
  intro m
  induction m with
  | nil => intro i q h; simp [List.lookup] at h
  | cons a t ih =>
      intro i q h
      obtain ⟨k, v⟩ := a
      simp only [List.lookup] at h
      cases hki : (i == k) with
      | true =>
          rw [hki] at h
          simp only [Option.some.injEq] at h
          have hk : i = k := by simpa using hki
          rw [hk, ← h]
          exact List.mem_cons_self _ _
      | false =>
          rw [hki] at h
          exact List.mem_cons_of_mem _ (ih i q h)

theorem applyBumps_map (m : List (ℕ × Point)) :
    ∀ (pts : List Point) (k : ℕ),
      (∀ (j : ℕ) (q : Point), List.lookup (k + j) m = some q →
        ∀ p : Point, pts.get? j = some p → eraseBump q = eraseBump p) →
      (applyBumps m k pts).map eraseBump = pts.map eraseBump := by
  intro pts
  induction pts with
  | nil => intro k _; rfl
  | cons p rest ih =>
      intro k H
      show ((match List.lookup k m with
        | some q => q
        | none => p) :: applyBumps m (k + 1) rest).map eraseBump = _
      rw [List.map_cons, List.map_cons]
      congr 1
      · cases hl : List.lookup k m with
        | none => rfl
        | some q => exact H 0 q (by simpa using hl) p rfl
      · apply ih (k + 1)
        intro j q hq p' hp'
        refine H (j + 1) q ?_ p' (by simpa using hp')
        rw [show k + (j + 1) = k + 1 + j by omega]
        exact hq

/-- Claim C10: `resolveCollisions` modifies only the `_bump` field of
its points — erasing `_bump` from its result gives back exactly the
input list, in order, with every other field (key, colour, `elon`,
`lon`) unchanged and no point added or removed. -/
theorem C10_frame (points : List Point) (minSepDeg : ℚ) :
    (resolveCollisions points minSepDeg).map eraseBump = points.map eraseBump := by
  unfold resolveCollisions
  have hf2 : List.Forall₂ sameCore (List.insertionSort lonLe (withIdx 0 points))
      (wrapAdjust minSepDeg (bumpPass minSepDeg (List.insertionSort lonLe (withIdx 0 points)))) :=
    forall2_sameCore_trans
      (bumpPass_forall2 minSepDeg (List.insertionSort lonLe (withIdx 0 points)))
      (wrapAdjust_forall2 minSepDeg _)
  apply applyBumps_map
  intro j q hq p hp
  have hmem : (0 + j, q) ∈
      wrapAdjust minSepDeg (bumpPass minSepDeg (List.insertionSort lonLe (withIdx 0 points))) :=
    lookup_mem _ _ _ hq
  obtain ⟨y, hy, hyx⟩ := forall2_sameCore_mem_right hf2 hmem
  have hy' : y ∈ withIdx 0 points :=
    (List.perm_insertionSort lonLe (withIdx 0 points)).mem_iff.mp hy
  obtain ⟨j', hj', hg⟩ := withIdx_mem points 0 y.1 y.2 (by rw [Prod.mk.eta]; exact hy')
  have hjj : j' = j := by
    have h1 : y.1 = 0 + j := hyx.1
    omega
  rw [hjj] at hg
  rw [hp] at hg
  have hyp : y.2 = p := (Option.some.inj hg).symm
  calc eraseBump q = eraseBump y.2 := hyx.2.symm
    _ = eraseBump p := by rw [hyp]
